import Mathlib

set_option maxHeartbeats 1000000
set_option maxRecDepth 8192
set_option autoImplicit false

/-!
Shallow embedding of the s3fs package: an afero-style filesystem layered over
an S3-like object store.

The Go `s3api` interface is modelled as a structure of state-passing
functions over an abstract store state `σ`; the concrete AWS client held in
the Go struct field `s3Api` becomes an explicit `api` argument of every
operation.  Each filesystem operation additionally records the sequence of
store calls it issues, so theorems can speak about which requests reach the
store and in which order.  Byte strings are lists of naturals; fallible Go
returns `(x, err)` become `Except String`.
-/

namespace S3fs

/-- Byte strings, as stored in object bodies. -/
abbrev Bytes := List Nat

/-- Result of Go `strings.TrimLeft(name, "/")`: drop every leading slash. -/
def trimLeftSlash (s : String) : String :=
  String.mk (s.data.dropWhile (fun c => c == '/'))

/-- Result of Go `strings.HasSuffix(name, "/")`. -/
def endsSlash (s : String) : Bool :=
  match s.data.getLast? with
  | some c => c == '/'
  | none => false

/-- Go `aws.BoolValue`: dereference an optional boolean, `false` when absent. -/
def boolValue (b : Option Bool) : Bool := b.getD false

/-- Go `aws.StringValue`: dereference an optional string, empty when absent. -/
def stringValue (s : Option String) : String := s.getD ""

/-- Split a character list into its slash-separated components. -/
def splitSlashAux : List Char → List Char → List String
  | [], acc => [String.mk acc.reverse]
  | c :: cs, acc =>
    if c == '/' then String.mk acc.reverse :: splitSlashAux cs []
    else splitSlashAux cs (c :: acc)

/-- Component processing of Go `path.Clean`: drop empty and dot components,
resolve dot-dot against the accumulated output (dropping it at the root of a
rooted path, keeping it at the front of a relative one). -/
def cleanParts (rooted : Bool) : List String → List String → List String
  | [], acc => acc.reverse
  | p :: ps, acc =>
    if p = "" ∨ p = "." then cleanParts rooted ps acc
    else if p = ".." then
      match acc with
      | [] => if rooted then cleanParts rooted ps [] else cleanParts rooted ps [".."]
      | a :: rest =>
        if a = ".." then cleanParts rooted ps (p :: a :: rest)
        else cleanParts rooted ps rest
    else cleanParts rooted ps (p :: acc)

/-- Join path components with slashes. -/
def joinSlash : List String → String
  | [] => ""
  | [p] => p
  | p :: q :: ps => p ++ "/" ++ joinSlash (q :: ps)

/-- Go `filepath.Clean` for slash-separated paths. -/
def pathClean (p : String) : String :=
  if p = "" then "."
  else
    let rooted := match p.data with | c :: _ => c == '/' | [] => false
    let joined := joinSlash (cleanParts rooted (splitSlashAux p.data []) [])
    if rooted then "/" ++ joined
    else if joined = "" then "." else joined

/-- Go `filepath.Join` on two elements: join the non-empty ones with a slash,
then clean the result. -/
def filepathJoin (a b : String) : String :=
  if a = "" ∧ b = "" then ""
  else if a = "" then pathClean b
  else if b = "" then pathClean a
  else pathClean (a ++ "/" ++ b)

/-- Go `filepath.Base` for slash-separated paths: strip trailing slashes and
keep everything after the last remaining slash. -/
def filepathBase (path : String) : String :=
  if path = "" then "."
  else
    let cs := path.data.reverse.dropWhile (fun c => c == '/')
    if cs = [] then "/"
    else String.mk (cs.takeWhile (fun c => c != '/')).reverse

/-- File component of Go `filepath.Split`: everything after the final slash. -/
def filepathSplitFile (path : String) : String :=
  String.mk (path.data.reverse.takeWhile (fun c => c != '/')).reverse

/-- GetObjectInput restricted to the fields the code sets. -/
structure GetObjectInput where
  bucket : String
  key : String
deriving DecidableEq

/-- PutObjectInput restricted to the fields the code sets. -/
structure PutObjectInput where
  bucket : String
  key : String
  body : Option Bytes
deriving DecidableEq

/-- DeleteObjectInput restricted to the fields the code sets. -/
structure DeleteObjectInput where
  bucket : String
  key : String
deriving DecidableEq

/-- DeleteObjectsInput: the bucket and the object identifiers (keys). -/
structure DeleteObjectsInput where
  bucket : String
  objects : List (Option String)
deriving DecidableEq

/-- CopyObjectInput restricted to the fields the code sets. -/
structure CopyObjectInput where
  bucket : String
  copySource : String
  key : String
deriving DecidableEq

/-- HeadObjectInput restricted to the fields the code sets. -/
structure HeadObjectInput where
  bucket : String
  key : String
deriving DecidableEq

/-- ListObjectsV2Input restricted to the fields the code sets.  The Go field
Prefix is called keyPrefix here because prefix is reserved in Lean. -/
structure ListObjectsV2Input where
  bucket : String
  keyPrefix : Option String
  continuationToken : Option String
  maxKeys : Option Int
deriving DecidableEq

/-- Modelled from the spec: the owned readable stream of a fetched object
(the io.ReadCloser behind GetObjectOutput.Body).  Go leaves the behaviour of
a second Close undefined, and the handle's own doc comment says it can
return an error on an already closed stream, so a stream carries a flag
saying whether re-closing it fails. -/
structure Body where
  data : Bytes
  closed : Bool
  failOnReclose : Bool
deriving DecidableEq

/-- Close the stream: closing an already closed stream fails exactly when the
stream is intolerant of a second close. -/
def Body.close (b : Body) : Except String Body :=
  if b.closed && b.failOnReclose then .error "stream already closed"
  else .ok { b with closed := true }

/-- GetObjectOutput restricted to the fields the code reads. -/
structure GetObjectOutput where
  body : Body
  contentLength : Option Int
  deleteMarker : Option Bool
deriving DecidableEq

/-- A listing entry (s3.Object) restricted to the fields the code reads. -/
structure Object where
  key : Option String
deriving DecidableEq

/-- ListObjectsV2Output restricted to the fields the code reads. -/
structure ListObjectsV2Output where
  contents : List Object
  isTruncated : Option Bool
  nextContinuationToken : Option String
deriving DecidableEq

/-- One store call, as issued by the filesystem layer. -/
inductive Call where
  | getObject : GetObjectInput → Call
  | putObject : PutObjectInput → Call
  | deleteObject : DeleteObjectInput → Call
  | deleteObjects : DeleteObjectsInput → Call
  | copyObject : CopyObjectInput → Call
  | waitUntilObjectExists : HeadObjectInput → Call
  | listObjectsV2 : ListObjectsV2Input → Call
deriving DecidableEq

/-- The Go s3api interface, as state-passing functions over a store state. -/
structure S3api (σ : Type) where
  getObject : GetObjectInput → σ → Except String GetObjectOutput × σ
  putObject : PutObjectInput → σ → Except String Unit × σ
  deleteObject : DeleteObjectInput → σ → Except String Unit × σ
  deleteObjects : DeleteObjectsInput → σ → Except String Unit × σ
  copyObject : CopyObjectInput → σ → Except String Unit × σ
  waitUntilObjectExists : HeadObjectInput → σ → Except String Unit × σ
  listObjectsV2 : ListObjectsV2Input → σ → Except String ListObjectsV2Output × σ

/-- Result of one filesystem operation: outcome, final store state and the
trace of store calls issued. -/
abbrev FsM (σ α : Type) := (Except String α) × σ × List Call

/-- The S3Fs adapter; its s3Api field becomes an explicit argument of every
operation. -/
structure S3Fs where
  bucket : String
deriving DecidableEq

/-- The S3File handle (the sync.RWMutex of the Go struct has no observable
sequential behaviour and is omitted). -/
structure S3File where
  bucket : String
  key : String
  s3ObjectOutput : Option GetObjectOutput
deriving DecidableEq

/-- The S3FileInfo descriptor. -/
structure S3FileInfo where
  key : String
  s3ObjectOutput : Option GetObjectOutput
  s3Object : Option Object
deriving DecidableEq

/-- S3FileInfo.Name from the source: the basename of the key. -/
def S3FileInfo.Name (i : S3FileInfo) : String := filepathBase i.key

/-- S3Fs.Open from the source: one GetObject at the key with leading slashes
trimmed; a fetched object carrying the delete marker is reported as deleted,
otherwise the output is wrapped in a handle. -/
def S3Fs.Open {σ : Type} (api : S3api σ) (s : S3Fs) (name : String) (st : σ) :
    FsM σ S3File :=
  let gIn : GetObjectInput := ⟨s.bucket, trimLeftSlash name⟩
  match api.getObject gIn st with
  | (.error e, st1) => (.error e, st1, [Call.getObject gIn])
  | (.ok out, st1) =>
    if boolValue out.deleteMarker then
      (.error "File is marked as deleted", st1, [Call.getObject gIn])
    else
      (.ok ⟨s.bucket, name, some out⟩, st1, [Call.getObject gIn])

/-- S3Fs.Create from the source: a name ending in a slash yields a bare
directory handle with no store call; otherwise an empty body is put at the
trimmed key and the file is opened. -/
def S3Fs.Create {σ : Type} (api : S3api σ) (s : S3Fs) (name : String) (st : σ) :
    FsM σ S3File :=
  if endsSlash name then
    (.ok ⟨s.bucket, name, none⟩, st, [])
  else
    let pIn : PutObjectInput := ⟨s.bucket, trimLeftSlash name, some []⟩
    match api.putObject pIn st with
    | (.error e, st1) => (.error e, st1, [Call.putObject pIn])
    | (.ok _, st1) =>
      let (r, st2, t) := S3Fs.Open api s name st1
      (r, st2, Call.putObject pIn :: t)

/-- S3Fs.OpenFile from the source: the flag and permission arguments are
ignored and Open is called. -/
def S3Fs.OpenFile {σ : Type} (api : S3api σ) (s : S3Fs) (name : String)
    (flag : Int) (perm : Nat) (st : σ) : FsM σ S3File :=
  S3Fs.Open api s name st

/-- S3Fs.RemoveAll from the source: list the trimmed name as a prefix, fail
when nothing is listed, otherwise batch-delete every listed key. -/
def S3Fs.RemoveAll {σ : Type} (api : S3api σ) (s : S3Fs) (name : String) (st : σ) :
    FsM σ Unit :=
  let lIn : ListObjectsV2Input := ⟨s.bucket, some (trimLeftSlash name), none, none⟩
  match api.listObjectsV2 lIn st with
  | (.error e, st1) => (.error e, st1, [Call.listObjectsV2 lIn])
  | (.ok listObject, st1) =>
    if listObject.contents.length = 0 then
      (.error "No objects", st1, [Call.listObjectsV2 lIn])
    else
      let dIn : DeleteObjectsInput := ⟨s.bucket, listObject.contents.map (fun o => o.key)⟩
      let (r, st2) := api.deleteObjects dIn st1
      (r, st2, [Call.listObjectsV2 lIn, Call.deleteObjects dIn])

/-- S3Fs.Rename from the source: copy from the joined bucket-and-old source
to the new key, delete the old key, then wait until the new key exists;
each failure aborts the remaining steps. -/
def S3Fs.Rename {σ : Type} (api : S3api σ) (s : S3Fs) (oldname newname : String)
    (st : σ) : FsM σ Unit :=
  let cIn : CopyObjectInput := ⟨s.bucket, filepathJoin s.bucket oldname, newname⟩
  match api.copyObject cIn st with
  | (.error e, st1) => (.error e, st1, [Call.copyObject cIn])
  | (.ok _, st1) =>
    let dIn : DeleteObjectInput := ⟨s.bucket, oldname⟩
    match api.deleteObject dIn st1 with
    | (.error e, st2) => (.error e, st2, [Call.copyObject cIn, Call.deleteObject dIn])
    | (.ok _, st2) =>
      let wIn : HeadObjectInput := ⟨s.bucket, newname⟩
      let (r, st3) := api.waitUntilObjectExists wIn st2
      (r, st3, [Call.copyObject cIn, Call.deleteObject dIn, Call.waitUntilObjectExists wIn])

/-- S3File.Close from the source: close the stream of the fetched object when
one is present, otherwise do nothing.  The updated handle is returned so a
second close can be expressed. -/
def S3File.Close (f : S3File) : Except String S3File :=
  match f.s3ObjectOutput with
  | some out =>
    match out.body.close with
    | .error e => .error e
    | .ok b => .ok { f with s3ObjectOutput := some { out with body := b } }
  | none => .ok f

/-- S3File.Write from the source: put the whole payload as the new object
body at the handle's key and report the payload length. -/
def S3File.Write {σ : Type} (api : S3api σ) (f : S3File) (p : Bytes) (st : σ) :
    FsM σ Int :=
  let pIn : PutObjectInput := ⟨f.bucket, f.key, some p⟩
  match api.putObject pIn st with
  | (.error e, st1) => (.error e, st1, [Call.putObject pIn])
  | (.ok _, st1) => (.ok (p.length : Int), st1, [Call.putObject pIn])

/-- The pagination loop of S3File.Readdir.  The fuel argument bounds how many
iterations of the Go for-loop are unfolded: a result of none means the bound
was reached while the loop would have kept going, every other outcome is the
loop's own. -/
def S3File.readdirLoop {σ : Type} (api : S3api σ) (f : S3File) (count : Int) :
    Nat → Option String → σ → FsM σ (Option (List S3FileInfo))
  | 0, _, st => (.ok none, st, [])
  | fuel + 1, token, st =>
    let lIn : ListObjectsV2Input := ⟨f.bucket, some (trimLeftSlash f.key), token, some count⟩
    match api.listObjectsV2 lIn st with
    | (.error e, st1) => (.error e, st1, [Call.listObjectsV2 lIn])
    | (.ok out, st1) =>
      let infos := out.contents.map (fun o => S3FileInfo.mk (stringValue o.key) none (some o))
      if boolValue out.isTruncated && out.nextContinuationToken.isSome then
        match S3File.readdirLoop api f count fuel out.nextContinuationToken st1 with
        | (.error e, st2, t) => (.error e, st2, Call.listObjectsV2 lIn :: t)
        | (.ok none, st2, t) => (.ok none, st2, Call.listObjectsV2 lIn :: t)
        | (.ok (some rest), st2, t) =>
          (.ok (some (infos ++ rest)), st2, Call.listObjectsV2 lIn :: t)
      else
        (.ok (some infos), st1, [Call.listObjectsV2 lIn])

/-- S3File.Readdir from the source: a handle with no fetched object cannot be
listed; otherwise pages are requested with the given count until the store
stops reporting a truncated result with a continuation token. -/
def S3File.Readdir {σ : Type} (api : S3api σ) (f : S3File) (count : Int)
    (fuel : Nat) (st : σ) : FsM σ (Option (List S3FileInfo)) :=
  match f.s3ObjectOutput with
  | none => (.error "Cannot read directory", st, [])
  | some _ => S3File.readdirLoop api f count fuel none st

/-- S3File.Readdirnames from the source: run Readdir, keep its error aside,
and build the name list from whatever slice Readdir returned, which is nil
when Readdir failed; both are returned together. -/
def S3File.Readdirnames {σ : Type} (api : S3api σ) (f : S3File) (n : Int)
    (fuel : Nat) (st : σ) : FsM σ (Option (List String × Option String)) :=
  match S3File.Readdir api f n fuel st with
  | (.ok none, st1, t) => (.ok none, st1, t)
  | (.ok (some fi), st1, t) =>
    (.ok (some (fi.map (fun i => filepathSplitFile (S3FileInfo.Name i)), none)), st1, t)
  | (.error e, st1, t) => (.ok (some ([], some e)), st1, t)

/-- A stored object: content bytes and the deletion-marker flag. -/
structure StoredObj where
  data : Bytes
  deleteMarker : Bool
deriving DecidableEq

/-- Modelled from the spec: the external object-store collaborator holds one
bucket, a flat association of keys to objects.  The store itself is not part
of the repository, only its interface is; its semantics follow the spec's
external-interface section. -/
structure StoreState where
  bucket : String
  objects : List (String × StoredObj)
deriving DecidableEq

/-- First value associated with a key. -/
def assocFind : List (String × StoredObj) → String → Option StoredObj
  | [], _ => none
  | (k, v) :: rest, q => if k = q then some v else assocFind rest q

/-- Replace or insert the value associated with a key. -/
def assocSet (l : List (String × StoredObj)) (k : String) (v : StoredObj) :
    List (String × StoredObj) :=
  l.filter (fun kv => kv.1 != k) ++ [(k, v)]

/-- Keys of the store sharing a given prefix, in storage order. -/
def matchingKeys (st : StoreState) (pfx : String) : List String :=
  (st.objects.filter (fun kv => pfx.data.isPrefixOf kv.1.data)).map (fun kv => kv.1)

/-- Modelled from the spec: get returns the content, its length and the
deletion-marker flag, or NotFound when the key is absent. -/
def specGetObject (inp : GetObjectInput) (st : StoreState) :
    Except String GetObjectOutput × StoreState :=
  if inp.bucket = st.bucket then
    match assocFind st.objects inp.key with
    | some o => (.ok ⟨⟨o.data, false, false⟩, some (o.data.length : Int), some o.deleteMarker⟩, st)
    | none => (.error "NotFound", st)
  else (.error "NoSuchBucket", st)

/-- Modelled from the spec: put stores the body (empty when absent) at the
key, replacing any previous object. -/
def specPutObject (inp : PutObjectInput) (st : StoreState) :
    Except String Unit × StoreState :=
  if inp.bucket = st.bucket then
    (.ok (), { st with objects := assocSet st.objects inp.key ⟨inp.body.getD [], false⟩ })
  else (.error "WriteError", st)

/-- Modelled from the spec: delete removes the key when present and always
acknowledges. -/
def specDeleteObject (inp : DeleteObjectInput) (st : StoreState) :
    Except String Unit × StoreState :=
  if inp.bucket = st.bucket then
    (.ok (), { st with objects := st.objects.filter (fun kv => kv.1 != inp.key) })
  else (.error "WriteError", st)

/-- Modelled from the spec: deleteBatch removes every named key in one call. -/
def specDeleteObjects (inp : DeleteObjectsInput) (st : StoreState) :
    Except String Unit × StoreState :=
  if inp.bucket = st.bucket then
    let ks := inp.objects.map (fun o => o.getD "")
    (.ok (), { st with objects := st.objects.filter (fun kv => !(ks.contains kv.1)) })
  else (.error "WriteError", st)

/-- Modelled from the spec: copy resolves the source reference, built from
bucket and key, back to a key by stripping the bucket-slash prefix, and
stores that object again under the destination key. -/
def specCopyObject (inp : CopyObjectInput) (st : StoreState) :
    Except String Unit × StoreState :=
  if inp.bucket = st.bucket then
    let pre := st.bucket ++ "/"
    if pre.data.isPrefixOf inp.copySource.data then
      match assocFind st.objects (String.mk (inp.copySource.data.drop pre.data.length)) with
      | some o => (.ok (), { st with objects := assocSet st.objects inp.key o })
      | none => (.error "NotFound", st)
    else (.error "NotFound", st)
  else (.error "WriteError", st)

/-- Modelled from the spec: the existence wait acknowledges when the key is
visible and times out otherwise. -/
def specWaitUntilObjectExists (inp : HeadObjectInput) (st : StoreState) :
    Except String Unit × StoreState :=
  if inp.bucket = st.bucket ∧ (assocFind st.objects inp.key).isSome then
    (.ok (), st)
  else (.error "Timeout", st)

/-- Modelled from the spec: listPrefix returns the keys sharing the prefix,
resuming after the continuation token (the last key of the previous page)
and truncating to maxKeys when one is given. -/
def specListObjectsV2 (inp : ListObjectsV2Input) (st : StoreState) :
    Except String ListObjectsV2Output × StoreState :=
  if inp.bucket = st.bucket then
    let ms := matchingKeys st (stringValue inp.keyPrefix)
    let rem :=
      match inp.continuationToken with
      | none => ms
      | some tok => (ms.dropWhile (fun k => k != tok)).drop 1
    match inp.maxKeys with
    | none => (.ok ⟨rem.map (fun k => ⟨some k⟩), some false, none⟩, st)
    | some m =>
      let page := rem.take m.toNat
      let truncated := decide (page.length < rem.length)
      (.ok ⟨page.map (fun k => ⟨some k⟩), some truncated,
        if truncated then page.getLast? else none⟩, st)
  else (.error "NoSuchBucket", st)

/-- The spec-modelled store assembled into the s3api interface. -/
def specApi : S3api StoreState where
  getObject := specGetObject
  putObject := specPutObject
  deleteObject := specDeleteObject
  deleteObjects := specDeleteObjects
  copyObject := specCopyObject
  waitUntilObjectExists := specWaitUntilObjectExists
  listObjectsV2 := specListObjectsV2

end S3fs

namespace S3fs

/-- A store whose first listing call answers one truncated page carrying a
continuation token and whose every later call fails; used to exercise a
listing failure after a successful first page. -/
def flakyApi : S3api Nat where
  getObject := fun _ n => (.error "unused", n)
  putObject := fun _ n => (.error "unused", n)
  deleteObject := fun _ n => (.error "unused", n)
  deleteObjects := fun _ n => (.error "unused", n)
  copyObject := fun _ n => (.error "unused", n)
  waitUntilObjectExists := fun _ n => (.error "unused", n)
  listObjectsV2 := fun _ n =>
    if n = 0 then (.ok ⟨[⟨some "test/path"⟩], some true, some "t"⟩, 1)
    else (.error "boom", n + 1)

theorem strMk_data (s : String) : String.mk s.data = s := rfl

theorem strData_append (a b : String) : (a ++ b).data = a.data ++ b.data := rfl

theorem isPrefixOf_self_append (l r : List Char) : l.isPrefixOf (l ++ r) = true := by
  induction l with
  | nil => simp [List.isPrefixOf]
  | cons c cs ih => simp [List.isPrefixOf, ih]

theorem assocFind_append_of_none (a b : List (String × StoredObj)) (q : String)
    (h : assocFind a q = none) : assocFind (a ++ b) q = assocFind b q := by
  induction a with
  | nil => rfl
  | cons kv rest ih =>
    obtain ⟨k, v⟩ := kv
    by_cases hk : k = q
    · simp [assocFind, hk] at h
    · simp only [assocFind, hk, if_false, List.cons_append] at h ⊢
      exact ih h

theorem assocFind_append_of_some (a b : List (String × StoredObj)) (q : String)
    (v : StoredObj) (h : assocFind a q = some v) : assocFind (a ++ b) q = some v := by
  induction a with
  | nil => simp [assocFind] at h
  | cons kv rest ih =>
    obtain ⟨k, w⟩ := kv
    by_cases hk : k = q
    · simp only [assocFind, hk, if_true, List.cons_append] at h ⊢
      exact h
    · simp only [assocFind, hk, if_false, List.cons_append] at h ⊢
      exact ih h

theorem assocFind_filterNe (l : List (String × StoredObj)) (k q : String) :
    assocFind (l.filter (fun kv => kv.1 != k)) q =
      if q = k then none else assocFind l q := by
  induction l with
  | nil => simp [assocFind]
  | cons kv rest ih =>
    obtain ⟨a, v⟩ := kv
    by_cases hak : a = k
    · have hfa : ((a, v).1 != k) = false := by simp [hak]
      rw [List.filter_cons, hfa]
      simp only [Bool.false_eq_true, if_false]
      rw [ih]
      by_cases hqk : q = k
      · simp [hqk]
      · have haq : a ≠ q := fun h => hqk (h ▸ hak)
        simp [assocFind, hqk, haq]
    · have hfa : ((a, v).1 != k) = true := by simp [hak]
      rw [List.filter_cons, hfa]
      simp only [if_true]
      by_cases haq : a = q
      · have hqk : q ≠ k := fun h => hak (haq.trans h)
        simp [assocFind, haq, hqk]
      · simp only [assocFind, haq, if_false]
        exact ih

theorem assocFind_set (l : List (String × StoredObj)) (k : String) (v : StoredObj)
    (q : String) :
    assocFind (assocSet l k v) q = if q = k then some v else assocFind l q := by
  unfold assocSet
  by_cases hqk : q = k
  · subst hqk
    have h1 : assocFind (l.filter (fun kv => kv.1 != q)) q = none := by
      rw [assocFind_filterNe]; simp
    rw [assocFind_append_of_none _ _ _ h1]
    simp [assocFind]
  · have hkq : k ≠ q := fun h => hqk h.symm
    rcases hfind : assocFind (l.filter (fun kv => kv.1 != k)) q with _ | w
    · rw [assocFind_append_of_none _ _ _ hfind]
      rw [assocFind_filterNe] at hfind
      simp only [hqk, if_false] at hfind
      simp [assocFind, hqk, hkq, hfind]
    · rw [assocFind_append_of_some _ _ _ _ hfind]
      rw [assocFind_filterNe] at hfind
      simp only [hqk, if_false] at hfind
      simp [hqk, hfind]

theorem assocFind_filterNotContains (l : List (String × StoredObj)) (ks : List String)
    (q : String) :
    assocFind (l.filter (fun kv => !(ks.contains kv.1))) q =
      if ks.contains q then none else assocFind l q := by
  induction l with
  | nil => cases h : ks.contains q <;> simp [assocFind, h]
  | cons kv rest ih =>
    obtain ⟨a, v⟩ := kv
    rw [List.filter_cons]
    cases hca : ks.contains a with
    | true =>
      simp only [Bool.not_true, Bool.false_eq_true, if_false]
      rw [ih]
      by_cases haq : a = q
      · subst haq
        rw [hca]
        simp
      · rw [show assocFind ((a, v) :: rest) q = assocFind rest q by simp [assocFind, haq]]
    | false =>
      simp only [Bool.not_false, if_true]
      by_cases haq : a = q
      · subst haq
        rw [hca]
        simp [assocFind]
      · rw [show assocFind ((a, v) :: rest.filter (fun kv => !(ks.contains kv.1))) q
              = assocFind (rest.filter (fun kv => !(ks.contains kv.1))) q by
            simp [assocFind, haq]]
        rw [ih]
        rw [show assocFind ((a, v) :: rest) q = assocFind rest q by simp [assocFind, haq]]

theorem contains_matchingKeys_imp (st : StoreState) (pfx q : String)
    (h : (matchingKeys st pfx).contains q = true) :
    pfx.data.isPrefixOf q.data = true := by
  unfold matchingKeys at h
  rw [List.contains_iff_exists_mem_beq] at h
  obtain ⟨x, hx, hbeq⟩ := h
  rw [List.mem_map] at hx
  obtain ⟨kv, hkv, hfst⟩ := hx
  rw [List.mem_filter] at hkv
  have hxq : x = q := by
    have := hbeq
    simp at this
    exact this.symm
  subst hxq
  rw [← hfst]
  exact hkv.2

theorem exists_mem_of_assocFind_some (l : List (String × StoredObj)) (q : String)
    (v : StoredObj) (hf : assocFind l q = some v) : ∃ w, (q, w) ∈ l := by
  induction l with
  | nil => simp [assocFind] at hf
  | cons kv rest ih =>
    obtain ⟨a, w⟩ := kv
    by_cases haq : a = q
    · exact ⟨w, by simp [haq]⟩
    · simp only [assocFind, haq, if_false] at hf
      obtain ⟨w2, hw2⟩ := ih hf
      exact ⟨w2, List.mem_cons_of_mem _ hw2⟩

theorem contains_matchingKeys_of_find (st : StoreState) (pfx q : String) (v : StoredObj)
    (hf : assocFind st.objects q = some v) (hp : pfx.data.isPrefixOf q.data = true) :
    (matchingKeys st pfx).contains q = true := by
  obtain ⟨w, hw⟩ := exists_mem_of_assocFind_some st.objects q v hf
  unfold matchingKeys
  rw [List.contains_iff_exists_mem_beq]
  refine ⟨q, ?_, by simp⟩
  rw [List.mem_map]
  exact ⟨(q, w), by rw [List.mem_filter]; exact ⟨hw, hp⟩, rfl⟩

theorem map_getD_map_some (l : List String) :
    (l.map some).map (fun o => o.getD "") = l := by
  induction l with
  | nil => rfl
  | cons a rest ih => simp [ih]

end S3fs

namespace S3fs

/-- C10: for every name and all values of the flag and permission arguments,
OpenFile returns exactly the same result as Open, issuing the same store
calls: the flag and permission arguments are ignored entirely. -/
theorem c10_openFile_is_open : ∀ (σ : Type) (api : S3api σ) (s : S3Fs)
    (name : String) (flag : Int) (perm : Nat) (st : σ),
    S3Fs.OpenFile api s name flag perm st = S3Fs.Open api s name st := by
  intro σ api s name flag perm st
  rfl

/-- C5: Open issues a single get at the key with leading separators
stripped; it fails when the store reports no such key (with NotFound on the
spec-modelled store), fails with the deleted-file error when the fetched
object carries the deletion marker, and otherwise returns a handle wrapping
the fetched payload and metadata. -/
theorem c5_open_contract : ∀ (σ : Type) (api : S3api σ) (s : S3Fs)
    (name : String) (st : σ),
    (S3Fs.Open api s name st).2.2 = [Call.getObject ⟨s.bucket, trimLeftSlash name⟩] ∧
    (∀ e st1, api.getObject ⟨s.bucket, trimLeftSlash name⟩ st = (.error e, st1) →
      S3Fs.Open api s name st =
        (.error e, st1, [Call.getObject ⟨s.bucket, trimLeftSlash name⟩])) ∧
    (∀ out st1, api.getObject ⟨s.bucket, trimLeftSlash name⟩ st = (.ok out, st1) →
      boolValue out.deleteMarker = true →
      S3Fs.Open api s name st =
        (.error "File is marked as deleted", st1,
         [Call.getObject ⟨s.bucket, trimLeftSlash name⟩])) ∧
    (∀ out st1, api.getObject ⟨s.bucket, trimLeftSlash name⟩ st = (.ok out, st1) →
      boolValue out.deleteMarker = false →
      S3Fs.Open api s name st =
        (.ok ⟨s.bucket, name, some out⟩, st1,
         [Call.getObject ⟨s.bucket, trimLeftSlash name⟩])) ∧
    (∀ stS : StoreState, stS.bucket = s.bucket →
      assocFind stS.objects (trimLeftSlash name) = none →
      S3Fs.Open specApi s name stS =
        (.error "NotFound", stS, [Call.getObject ⟨s.bucket, trimLeftSlash name⟩])) := by
  intro σ api s name st
  refine ⟨?_, ?_, ?_, ?_, ?_⟩
  · rcases hg : api.getObject ⟨s.bucket, trimLeftSlash name⟩ st with ⟨r, st1⟩
    cases r with
    | error e => simp [S3Fs.Open, hg]
    | ok out => cases hb : boolValue out.deleteMarker <;> simp [S3Fs.Open, hg, hb]
  · intro e st1 hg
    simp [S3Fs.Open, hg]
  · intro out st1 hg hb
    simp [S3Fs.Open, hg, hb]
  · intro out st1 hg hb
    simp [S3Fs.Open, hg, hb]
  · intro stS hb hf
    simp [S3Fs.Open, specApi, specGetObject, hb, hf]

/-- Witness for C5 at a concrete store: opening a missing key on the
spec-modelled store fails with NotFound after one get. -/
theorem c5_witness :
    S3Fs.Open specApi ⟨"b"⟩ "/nope" ⟨"b", []⟩ =
      (.error "NotFound", (⟨"b", []⟩ : StoreState), [Call.getObject ⟨"b", "nope"⟩]) :=
  (c5_open_contract StoreState specApi ⟨"b"⟩ "/nope" ⟨"b", []⟩).2.2.2.2 ⟨"b", []⟩ rfl rfl

/-- C6: Create on a name ending with the separator returns a directory-only
handle without any store call; on any other name it issues an empty-payload
put at the trimmed key, fails if the put fails, and otherwise returns the
result of Open, with the put call preceding Open's get in the trace. -/
theorem c6_create_contract : ∀ (σ : Type) (api : S3api σ) (s : S3Fs)
    (name : String) (st : σ),
    (endsSlash name = true →
      S3Fs.Create api s name st = (.ok ⟨s.bucket, name, none⟩, st, [])) ∧
    (endsSlash name = false →
      (∀ e st1, api.putObject ⟨s.bucket, trimLeftSlash name, some []⟩ st = (.error e, st1) →
        S3Fs.Create api s name st =
          (.error e, st1, [Call.putObject ⟨s.bucket, trimLeftSlash name, some []⟩])) ∧
      (∀ u st1, api.putObject ⟨s.bucket, trimLeftSlash name, some []⟩ st = (.ok u, st1) →
        S3Fs.Create api s name st =
          ((S3Fs.Open api s name st1).1, (S3Fs.Open api s name st1).2.1,
           Call.putObject ⟨s.bucket, trimLeftSlash name, some []⟩ ::
             (S3Fs.Open api s name st1).2.2))) := by
  intro σ api s name st
  constructor
  · intro hs
    simp [S3Fs.Create, hs]
  · intro hs
    constructor
    · intro e st1 hp
      simp [S3Fs.Create, hs, hp]
    · intro u st1 hp
      rcases ho : S3Fs.Open api s name st1 with ⟨r, st2, t⟩
      simp [S3Fs.Create, hs, hp, ho]

/-- Witness for C6 at concrete inputs: a slash-terminated name yields a bare
directory handle with no store traffic, and a plain name on the spec store
puts an empty object and then opens it. -/
theorem c6_witness :
    S3Fs.Create specApi ⟨"b"⟩ "dir/" ⟨"b", []⟩ =
      (.ok ⟨"b", "dir/", none⟩, (⟨"b", []⟩ : StoreState), []) ∧
    S3Fs.Create specApi ⟨"b"⟩ "/a/b.txt" ⟨"b", []⟩ =
      ((S3Fs.Open specApi ⟨"b"⟩ "/a/b.txt" ⟨"b", [("a/b.txt", ⟨[], false⟩)]⟩).1,
       (S3Fs.Open specApi ⟨"b"⟩ "/a/b.txt" ⟨"b", [("a/b.txt", ⟨[], false⟩)]⟩).2.1,
       Call.putObject ⟨"b", "a/b.txt", some []⟩ ::
         (S3Fs.Open specApi ⟨"b"⟩ "/a/b.txt" ⟨"b", [("a/b.txt", ⟨[], false⟩)]⟩).2.2) :=
  ⟨(c6_create_contract StoreState specApi ⟨"b"⟩ "dir/" ⟨"b", []⟩).1 rfl,
   ((c6_create_contract StoreState specApi ⟨"b"⟩ "/a/b.txt" ⟨"b", []⟩).2 rfl).2 () _ rfl⟩

/-- C4: Write puts the whole payload as the new object body at the handle's
key and returns the full payload length; on the spec-modelled store a get at
the key right after a write returns exactly the last payload written, so a
second write replaces the first rather than appending to it. -/
theorem c4_write_contract :
    (∀ (σ : Type) (api : S3api σ) (f : S3File) (p : Bytes) (st : σ),
      (∀ e st1, api.putObject ⟨f.bucket, f.key, some p⟩ st = (.error e, st1) →
        S3File.Write api f p st =
          (.error e, st1, [Call.putObject ⟨f.bucket, f.key, some p⟩])) ∧
      (∀ u st1, api.putObject ⟨f.bucket, f.key, some p⟩ st = (.ok u, st1) →
        S3File.Write api f p st =
          (.ok (p.length : Int), st1, [Call.putObject ⟨f.bucket, f.key, some p⟩]))) ∧
    (∀ (f : S3File) (st : StoreState) (p1 p2 : Bytes), st.bucket = f.bucket →
      ∃ st1 st2,
        S3File.Write specApi f p1 st =
          (.ok (p1.length : Int), st1, [Call.putObject ⟨f.bucket, f.key, some p1⟩]) ∧
        (specApi.getObject ⟨f.bucket, f.key⟩ st1).1 =
          .ok ⟨⟨p1, false, false⟩, some (p1.length : Int), some false⟩ ∧
        S3File.Write specApi f p2 st1 =
          (.ok (p2.length : Int), st2, [Call.putObject ⟨f.bucket, f.key, some p2⟩]) ∧
        (specApi.getObject ⟨f.bucket, f.key⟩ st2).1 =
          .ok ⟨⟨p2, false, false⟩, some (p2.length : Int), some false⟩) := by
  constructor
  · intro σ api f p st
    constructor
    · intro e st1 hp
      simp [S3File.Write, hp]
    · intro u st1 hp
      simp [S3File.Write, hp]
  · intro f st p1 p2 hb
    refine ⟨{ st with objects := assocSet st.objects f.key ⟨p1, false⟩ },
            { st with objects :=
                assocSet (assocSet st.objects f.key ⟨p1, false⟩) f.key ⟨p2, false⟩ },
            ?_, ?_, ?_, ?_⟩
    · simp [S3File.Write, specApi, specPutObject, hb]
    · simp [specApi, specGetObject, hb, assocFind_set]
    · simp [S3File.Write, specApi, specPutObject, hb]
    · simp [specApi, specGetObject, hb, assocFind_set]

/-- Witness for C4 at concrete inputs: writing one byte and then two other
bytes on the spec-modelled store leaves exactly the second payload. -/
theorem c4_witness :
    ∃ st1 st2,
      S3File.Write specApi ⟨"b", "/k", none⟩ [1] ⟨"b", []⟩ =
        (.ok 1, st1, [Call.putObject ⟨"b", "/k", some [1]⟩]) ∧
      (specApi.getObject ⟨"b", "/k"⟩ st1).1 =
        .ok ⟨⟨[1], false, false⟩, some 1, some false⟩ ∧
      S3File.Write specApi ⟨"b", "/k", none⟩ [2, 3] st1 =
        (.ok 2, st2, [Call.putObject ⟨"b", "/k", some [2, 3]⟩]) ∧
      (specApi.getObject ⟨"b", "/k"⟩ st2).1 =
        .ok ⟨⟨[2, 3], false, false⟩, some 2, some false⟩ :=
  c4_write_contract.2 ⟨"b", "/k", none⟩ ⟨"b", []⟩ [1] [2, 3] rfl

end S3fs

namespace S3fs

/-- C8 (amended): Close on a never-opened handle returns no error; when a
stream is present, Close always delegates to the stream's close, so a second
Close after a successful one returns no error only when the underlying
stream tolerates being closed twice. -/
theorem c8_close_amended : ∀ f : S3File,
    (f.s3ObjectOutput = none → S3File.Close f = .ok f) ∧
    (∀ out f2, f.s3ObjectOutput = some out → out.body.failOnReclose = false →
      S3File.Close f = .ok f2 → S3File.Close f2 = .ok f2) := by
  intro f
  constructor
  · intro h
    simp [S3File.Close, h]
  · intro out f2 hso hfr hc
    have hclose : S3File.Close f =
        .ok { f with s3ObjectOutput := some { out with body := { out.body with closed := true } } } := by
      simp [S3File.Close, hso, Body.close, hfr]
    rw [hclose] at hc
    simp only [Except.ok.injEq] at hc
    subst hc
    simp [S3File.Close, Body.close, hfr]

/-- Counterexample for C8: a handle whose stream does not tolerate a second
close; the first Close succeeds but the second one returns an error, because
the code delegates to the stream's close unconditionally instead of making
the second call a no-op. -/
theorem c8_counterexample :
    S3File.Close ⟨"b", "k", some ⟨⟨[], false, true⟩, none, none⟩⟩ =
      .ok ⟨"b", "k", some ⟨⟨[], true, true⟩, none, none⟩⟩ ∧
    S3File.Close ⟨"b", "k", some ⟨⟨[], true, true⟩, none, none⟩⟩ =
      .error "stream already closed" :=
  ⟨rfl, rfl⟩

/-- Witness for C8 at concrete handles: a never-opened handle closes without
error, and a second close succeeds on a stream tolerating it. -/
theorem c8_witness :
    S3File.Close (⟨"b", "k", none⟩ : S3File) = .ok ⟨"b", "k", none⟩ ∧
    S3File.Close ⟨"b", "k", some ⟨⟨[5], true, false⟩, none, none⟩⟩ =
      .ok ⟨"b", "k", some ⟨⟨[5], true, false⟩, none, none⟩⟩ :=
  ⟨(c8_close_amended ⟨"b", "k", none⟩).1 rfl,
   (c8_close_amended ⟨"b", "k", some ⟨⟨[5], false, false⟩, none, none⟩⟩).2
     ⟨⟨[5], false, false⟩, none, none⟩ _ rfl rfl rfl⟩

/-- C2: RemoveAll lists the trimmed name as a prefix; an empty listing fails
with the no-objects error, otherwise every key the listing returned is
batch-deleted in one call, and on the spec-modelled store every key under
the prefix is removed while all other keys survive. -/
theorem c2_removeAll_contract :
    (∀ (σ : Type) (api : S3api σ) (s : S3Fs) (name : String) (st : σ),
      (∀ e st1,
        api.listObjectsV2 ⟨s.bucket, some (trimLeftSlash name), none, none⟩ st = (.error e, st1) →
        S3Fs.RemoveAll api s name st =
          (.error e, st1,
           [Call.listObjectsV2 ⟨s.bucket, some (trimLeftSlash name), none, none⟩])) ∧
      (∀ out st1,
        api.listObjectsV2 ⟨s.bucket, some (trimLeftSlash name), none, none⟩ st = (.ok out, st1) →
        out.contents = [] →
        S3Fs.RemoveAll api s name st =
          (.error "No objects", st1,
           [Call.listObjectsV2 ⟨s.bucket, some (trimLeftSlash name), none, none⟩])) ∧
      (∀ out st1,
        api.listObjectsV2 ⟨s.bucket, some (trimLeftSlash name), none, none⟩ st = (.ok out, st1) →
        out.contents ≠ [] →
        S3Fs.RemoveAll api s name st =
          ((api.deleteObjects ⟨s.bucket, out.contents.map (fun o => o.key)⟩ st1).1,
           (api.deleteObjects ⟨s.bucket, out.contents.map (fun o => o.key)⟩ st1).2,
           [Call.listObjectsV2 ⟨s.bucket, some (trimLeftSlash name), none, none⟩,
            Call.deleteObjects ⟨s.bucket, out.contents.map (fun o => o.key)⟩]))) ∧
    (∀ (s : S3Fs) (st : StoreState) (name : String), st.bucket = s.bucket →
      (matchingKeys st (trimLeftSlash name) = [] →
        S3Fs.RemoveAll specApi s name st =
          (.error "No objects", st,
           [Call.listObjectsV2 ⟨s.bucket, some (trimLeftSlash name), none, none⟩])) ∧
      (matchingKeys st (trimLeftSlash name) ≠ [] →
        ∃ st', S3Fs.RemoveAll specApi s name st =
            (.ok (), st',
             [Call.listObjectsV2 ⟨s.bucket, some (trimLeftSlash name), none, none⟩,
              Call.deleteObjects ⟨s.bucket, (matchingKeys st (trimLeftSlash name)).map some⟩]) ∧
          ∀ q, assocFind st'.objects q =
            if (trimLeftSlash name).data.isPrefixOf q.data then none
            else assocFind st.objects q)) := by
  constructor
  · intro σ api s name st
    refine ⟨?_, ?_, ?_⟩
    · intro e st1 hl
      simp [S3Fs.RemoveAll, hl]
    · intro out st1 hl hce
      simp [S3Fs.RemoveAll, hl, hce]
    · intro out st1 hl hne
      rcases hd : api.deleteObjects ⟨s.bucket, out.contents.map (fun o => o.key)⟩ st1 with ⟨r, st2⟩
      simp [S3Fs.RemoveAll, hl, List.length_eq_zero, hne, hd]
  · intro s st name hb
    have hlist : specApi.listObjectsV2 ⟨s.bucket, some (trimLeftSlash name), none, none⟩ st =
        (.ok ⟨(matchingKeys st (trimLeftSlash name)).map (fun k => ⟨some k⟩), some false, none⟩,
         st) := by
      simp [specApi, specListObjectsV2, hb, stringValue]
    constructor
    · intro hm
      simp [S3Fs.RemoveAll, hlist, hm]
    · intro hm
      refine ⟨⟨st.bucket,
          st.objects.filter
            (fun kv => !((matchingKeys st (trimLeftSlash name)).contains kv.1))⟩, ?_, ?_⟩
      · have hids : ((matchingKeys st (trimLeftSlash name)).map
            (fun k => (⟨some k⟩ : Object))).map (fun o => o.key) =
            (matchingKeys st (trimLeftSlash name)).map some := by
          rw [List.map_map]; rfl
        have hdel : specApi.deleteObjects
            ⟨s.bucket, (matchingKeys st (trimLeftSlash name)).map some⟩ st =
            (.ok (), ⟨st.bucket,
              st.objects.filter
                (fun kv => !((matchingKeys st (trimLeftSlash name)).contains kv.1))⟩) := by
          simp [specApi, specDeleteObjects, hb, map_getD_map_some]
        simp [S3Fs.RemoveAll, hlist, List.length_eq_zero, hm, hids, hdel]
      · intro q
        show assocFind
            (st.objects.filter
              (fun kv => !((matchingKeys st (trimLeftSlash name)).contains kv.1))) q = _
        rw [assocFind_filterNotContains]
        by_cases hpq : (trimLeftSlash name).data.isPrefixOf q.data = true
        · rcases hfq : assocFind st.objects q with _ | v
          · cases hc : (matchingKeys st (trimLeftSlash name)).contains q <;>
              simp [hc, hpq, hfq]
          · have hc := contains_matchingKeys_of_find st (trimLeftSlash name) q v hfq hpq
            have hcm : q ∈ matchingKeys st (trimLeftSlash name) := by simpa using hc
            simp [hcm, hpq]
        · have hc : (matchingKeys st (trimLeftSlash name)).contains q = false := by
            cases hcc : (matchingKeys st (trimLeftSlash name)).contains q
            · rfl
            · exact absurd (contains_matchingKeys_imp st (trimLeftSlash name) q hcc) hpq
          have hpq' : (trimLeftSlash name).data.isPrefixOf q.data = false := by
            cases hpp : (trimLeftSlash name).data.isPrefixOf q.data
            · rfl
            · exact absurd hpp hpq
          have hcm : q ∉ matchingKeys st (trimLeftSlash name) := by simpa using hc
          simp [hcm, hpq']

/-- Witness for C2 at a concrete store: removing the prefix p deletes the two
keys under it and leaves the unrelated key, and removing a prefix with no
keys fails with the no-objects error. -/
theorem c2_witness :
    (∃ st', S3Fs.RemoveAll specApi ⟨"b"⟩ "/p"
        ⟨"b", [("p/x", ⟨[1], false⟩), ("p/y", ⟨[2], false⟩), ("q", ⟨[3], false⟩)]⟩ =
        (.ok (), st',
         [Call.listObjectsV2 ⟨"b", some "p", none, none⟩,
          Call.deleteObjects ⟨"b", [some "p/x", some "p/y"]⟩]) ∧
      ∀ q, assocFind st'.objects q =
        if ("p" : String).data.isPrefixOf q.data then none
        else assocFind [("p/x", ⟨[1], false⟩), ("p/y", ⟨[2], false⟩), ("q", ⟨[3], false⟩)] q) ∧
    S3Fs.RemoveAll specApi ⟨"b"⟩ "/p" ⟨"b", []⟩ =
      (.error "No objects", (⟨"b", []⟩ : StoreState),
       [Call.listObjectsV2 ⟨"b", some "p", none, none⟩]) :=
  ⟨((c2_removeAll_contract.2 ⟨"b"⟩
      ⟨"b", [("p/x", ⟨[1], false⟩), ("p/y", ⟨[2], false⟩), ("q", ⟨[3], false⟩)]⟩ "/p" rfl).2
      (by decide)),
   ((c2_removeAll_contract.2 ⟨"b"⟩ ⟨"b", []⟩ "/p" rfl).1 rfl)⟩

end S3fs

namespace S3fs

theorem specCopy_resolves (st : StoreState) (b oldname newname : String) (obj : StoredObj)
    (hb : st.bucket = b) (hf : assocFind st.objects oldname = some obj) :
    specCopyObject ⟨b, b ++ "/" ++ oldname, newname⟩ st =
      (.ok (), ⟨st.bucket, assocSet st.objects newname obj⟩) := by
  subst hb
  have h1 : ((st.bucket ++ "/") ++ oldname).data = (st.bucket ++ "/").data ++ oldname.data :=
    strData_append _ _
  have h2 : (st.bucket ++ "/").data.isPrefixOf ((st.bucket ++ "/") ++ oldname).data = true := by
    rw [h1]; exact isPrefixOf_self_append _ _
  have h3 : String.mk (((st.bucket ++ "/") ++ oldname).data.drop (st.bucket ++ "/").data.length)
      = oldname := by
    rw [h1, List.drop_left]
  simp only [specCopyObject, eq_self_iff_true, if_true]
  rw [if_pos h2, h3, hf]

/-- C1 (amended): Rename performs the copy, delete and existence-wait steps
in order, aborting as soon as one fails, with the copy source built by
joining the bucket and the old path; when the store holds an object at the
old path and joining the bucket to the old path yields exactly
bucket-slash-oldpath (the old path is a clean relative path), a successful
Rename leaves the store so that a get at the new key returns the original
content and a get at the old key fails with NotFound. -/
theorem c1_rename_contract :
    (∀ (σ : Type) (api : S3api σ) (s : S3Fs) (oldname newname : String) (st : σ),
      (∀ e st1,
        api.copyObject ⟨s.bucket, filepathJoin s.bucket oldname, newname⟩ st = (.error e, st1) →
        S3Fs.Rename api s oldname newname st =
          (.error e, st1,
           [Call.copyObject ⟨s.bucket, filepathJoin s.bucket oldname, newname⟩])) ∧
      (∀ u st1 e st2,
        api.copyObject ⟨s.bucket, filepathJoin s.bucket oldname, newname⟩ st = (.ok u, st1) →
        api.deleteObject ⟨s.bucket, oldname⟩ st1 = (.error e, st2) →
        S3Fs.Rename api s oldname newname st =
          (.error e, st2,
           [Call.copyObject ⟨s.bucket, filepathJoin s.bucket oldname, newname⟩,
            Call.deleteObject ⟨s.bucket, oldname⟩])) ∧
      (∀ u st1 v st2,
        api.copyObject ⟨s.bucket, filepathJoin s.bucket oldname, newname⟩ st = (.ok u, st1) →
        api.deleteObject ⟨s.bucket, oldname⟩ st1 = (.ok v, st2) →
        S3Fs.Rename api s oldname newname st =
          ((api.waitUntilObjectExists ⟨s.bucket, newname⟩ st2).1,
           (api.waitUntilObjectExists ⟨s.bucket, newname⟩ st2).2,
           [Call.copyObject ⟨s.bucket, filepathJoin s.bucket oldname, newname⟩,
            Call.deleteObject ⟨s.bucket, oldname⟩,
            Call.waitUntilObjectExists ⟨s.bucket, newname⟩]))) ∧
    (∀ (s : S3Fs) (st : StoreState) (oldname newname : String) (obj : StoredObj)
        (st' : StoreState) (tr : List Call),
      st.bucket = s.bucket →
      assocFind st.objects oldname = some obj →
      filepathJoin s.bucket oldname = s.bucket ++ "/" ++ oldname →
      S3Fs.Rename specApi s oldname newname st = (.ok (), st', tr) →
      tr = [Call.copyObject ⟨s.bucket, s.bucket ++ "/" ++ oldname, newname⟩,
            Call.deleteObject ⟨s.bucket, oldname⟩,
            Call.waitUntilObjectExists ⟨s.bucket, newname⟩] ∧
      (specApi.getObject ⟨s.bucket, newname⟩ st').1 =
        .ok ⟨⟨obj.data, false, false⟩, some (obj.data.length : Int), some obj.deleteMarker⟩ ∧
      (specApi.getObject ⟨s.bucket, oldname⟩ st').1 = .error "NotFound") := by
  constructor
  · intro σ api s oldname newname st
    refine ⟨?_, ?_, ?_⟩
    · intro e st1 hc
      simp [S3Fs.Rename, hc]
    · intro u st1 e st2 hc hd
      simp [S3Fs.Rename, hc, hd]
    · intro u st1 v st2 hc hd
      rcases hw : api.waitUntilObjectExists ⟨s.bucket, newname⟩ st2 with ⟨r, st3⟩
      simp [S3Fs.Rename, hc, hd, hw]
  · intro s st oldname newname obj st' tr hb hf hsrc hrun
    have hcopy : specApi.copyObject ⟨s.bucket, filepathJoin s.bucket oldname, newname⟩ st =
        (.ok (), ⟨st.bucket, assocSet st.objects newname obj⟩) := by
      rw [hsrc]
      exact specCopy_resolves st s.bucket oldname newname obj hb hf
    have hdelete : specApi.deleteObject ⟨s.bucket, oldname⟩
        (⟨st.bucket, assocSet st.objects newname obj⟩ : StoreState) =
        (.ok (), ⟨st.bucket,
          (assocSet st.objects newname obj).filter (fun kv => kv.1 != oldname)⟩) := by
      simp [specApi, specDeleteObject, hb]
    have hfind2 : assocFind
        ((assocSet st.objects newname obj).filter (fun kv => kv.1 != oldname)) newname =
        if newname = oldname then none else some obj := by
      rw [assocFind_filterNe]
      by_cases hno : newname = oldname
      · simp [hno]
      · simp [hno, assocFind_set]
    by_cases hno : newname = oldname
    · have hfo : assocFind
          ((assocSet st.objects newname obj).filter (fun kv => kv.1 != oldname)) newname =
          none := by
        rw [hfind2]; simp [hno]
      have hwait : specApi.waitUntilObjectExists ⟨s.bucket, newname⟩
          (⟨st.bucket,
            (assocSet st.objects newname obj).filter (fun kv => kv.1 != oldname)⟩ :
            StoreState) =
          (.error "Timeout", ⟨st.bucket,
            (assocSet st.objects newname obj).filter (fun kv => kv.1 != oldname)⟩) := by
        simp [specApi, specWaitUntilObjectExists, hfo]
      simp only [S3Fs.Rename, hcopy, hdelete, hwait] at hrun
      simp at hrun
    · have hfn : assocFind
          ((assocSet st.objects newname obj).filter (fun kv => kv.1 != oldname)) newname =
          some obj := by
        rw [hfind2]; simp [hno]
      have hwait : specApi.waitUntilObjectExists ⟨s.bucket, newname⟩
          (⟨st.bucket,
            (assocSet st.objects newname obj).filter (fun kv => kv.1 != oldname)⟩ :
            StoreState) =
          (.ok (), ⟨st.bucket,
            (assocSet st.objects newname obj).filter (fun kv => kv.1 != oldname)⟩) := by
        simp [specApi, specWaitUntilObjectExists, hfn, hb]
      simp only [S3Fs.Rename, hcopy, hdelete, hwait, Prod.mk.injEq, Except.ok.injEq] at hrun
      obtain ⟨-, hst, htr⟩ := hrun
      refine ⟨?_, ?_, ?_⟩
      · rw [← htr, hsrc]
      · rw [← hst]
        have hfindn : assocFind
            ((assocSet st.objects newname obj).filter (fun kv => kv.1 != oldname)) newname =
            some obj := by
          rw [hfind2]; simp [hno]
        simp [specApi, specGetObject, hb, hfindn]
      · rw [← hst]
        have hfindo : assocFind
            ((assocSet st.objects newname obj).filter (fun kv => kv.1 != oldname)) oldname =
            none := by
          rw [assocFind_filterNe]; simp
        simp [specApi, specGetObject, hb, hfindo]

/-- Counterexample for C1: with objects at both the keys slash-a and a, the
path join cleans the copy source bucket-slash-slash-a to bucket-slash-a, so
renaming slash-a to c succeeds yet stores the content of the unrelated key a
at c rather than the original content of slash-a. -/
theorem c1_counterexample :
    S3Fs.Rename specApi ⟨"b"⟩ "/a" "c"
        ⟨"b", [("/a", ⟨[1], false⟩), ("a", ⟨[2], false⟩)]⟩ =
      (.ok (), ⟨"b", [("a", ⟨[2], false⟩), ("c", ⟨[2], false⟩)]⟩,
       [Call.copyObject ⟨"b", "b/a", "c"⟩, Call.deleteObject ⟨"b", "/a"⟩,
        Call.waitUntilObjectExists ⟨"b", "c"⟩]) ∧
    (specApi.getObject ⟨"b", "c"⟩ ⟨"b", [("a", ⟨[2], false⟩), ("c", ⟨[2], false⟩)]⟩).1 =
      .ok ⟨⟨[2], false, false⟩, some 1, some false⟩ ∧
    ([2] : Bytes) ≠ [1] :=
  ⟨rfl, rfl, by decide⟩

/-- Witness for C1 at a concrete store: renaming the clean relative key x to
y moves the object, after which y resolves to the original content and x is
NotFound. -/
theorem c1_witness :
    ([Call.copyObject ⟨"b", "b/x", "y"⟩, Call.deleteObject ⟨"b", "x"⟩,
      Call.waitUntilObjectExists ⟨"b", "y"⟩] : List Call) =
      [Call.copyObject ⟨"b", "b" ++ "/" ++ "x", "y"⟩, Call.deleteObject ⟨"b", "x"⟩,
       Call.waitUntilObjectExists ⟨"b", "y"⟩] ∧
    (specApi.getObject ⟨"b", "y"⟩ ⟨"b", [("y", ⟨[7], true⟩)]⟩).1 =
      .ok ⟨⟨[7], false, false⟩, some 1, some true⟩ ∧
    (specApi.getObject ⟨"b", "x"⟩ ⟨"b", [("y", ⟨[7], true⟩)]⟩).1 = .error "NotFound" :=
  c1_rename_contract.2 ⟨"b"⟩ ⟨"b", [("x", ⟨[7], true⟩)]⟩ "x" "y" ⟨[7], true⟩
    ⟨"b", [("y", ⟨[7], true⟩)]⟩
    [Call.copyObject ⟨"b", "b/x", "y"⟩, Call.deleteObject ⟨"b", "x"⟩,
     Call.waitUntilObjectExists ⟨"b", "y"⟩]
    rfl rfl rfl rfl

end S3fs

namespace S3fs

/-- The pagination discipline the claim describes for Readdir, tied to the
store's actual behaviour: starting from a token and a store state, each round
issues one prefix-listing call with the trimmed key as prefix and the count
as page size, whose output and next state are the store's actual response at
that state; the page's entries are accumulated in order, and a further page
is requested exactly when that actual response both reports the result
truncated and supplies a continuation token, which becomes the next call's
token; the chain stops as soon as either condition fails.  Because the api
is a function of the state, the chain from a given token and state is
uniquely determined by the store. -/
inductive PagedRun {σ : Type} (api : S3api σ) (f : S3File) (count : Int) :
    Option String → σ → σ → List Call → List S3FileInfo → Prop where
  | last (tok : Option String) (st : σ) (out : ListObjectsV2Output) (st1 : σ)
      (hcall : api.listObjectsV2 ⟨f.bucket, some (trimLeftSlash f.key), tok, some count⟩ st =
        (.ok out, st1))
      (hstop : (boolValue out.isTruncated && out.nextContinuationToken.isSome) = false) :
      PagedRun api f count tok st st1
        [Call.listObjectsV2 ⟨f.bucket, some (trimLeftSlash f.key), tok, some count⟩]
        (out.contents.map (fun o => S3FileInfo.mk (stringValue o.key) none (some o)))
  | more (tok : Option String) (st : σ) (out : ListObjectsV2Output) (st1 st2 : σ)
      (calls : List Call) (rest : List S3FileInfo)
      (hcall : api.listObjectsV2 ⟨f.bucket, some (trimLeftSlash f.key), tok, some count⟩ st =
        (.ok out, st1))
      (hmore : (boolValue out.isTruncated && out.nextContinuationToken.isSome) = true)
      (htail : PagedRun api f count out.nextContinuationToken st1 st2 calls rest) :
      PagedRun api f count tok st st2
        (Call.listObjectsV2 ⟨f.bucket, some (trimLeftSlash f.key), tok, some count⟩ :: calls)
        (out.contents.map (fun o => S3FileInfo.mk (stringValue o.key) none (some o)) ++ rest)

theorem readdirLoop_pagedRun {σ : Type} (api : S3api σ) (f : S3File) (count : Int) :
    ∀ (fuel : Nat) (tok : Option String) (st : σ) (infos : List S3FileInfo) (st' : σ)
      (trace : List Call),
    S3File.readdirLoop api f count fuel tok st = (.ok (some infos), st', trace) →
    PagedRun api f count tok st st' trace infos := by
  intro fuel
  induction fuel with
  | zero =>
    intro tok st infos st' trace h
    simp [S3File.readdirLoop] at h
  | succ fuel ih =>
    intro tok st infos st' trace h
    rcases hl : api.listObjectsV2 ⟨f.bucket, some (trimLeftSlash f.key), tok, some count⟩ st
      with ⟨r, st1⟩
    cases r with
    | error e =>
      simp [S3File.readdirLoop, hl] at h
    | ok out =>
      by_cases hcond : (boolValue out.isTruncated && out.nextContinuationToken.isSome) = true
      · rcases hrec : S3File.readdirLoop api f count fuel out.nextContinuationToken st1
          with ⟨r2, st2, t2⟩
        cases r2 with
        | error e =>
          simp [S3File.readdirLoop, hl, hcond, hrec] at h
        | ok o2 =>
          cases o2 with
          | none =>
            simp [S3File.readdirLoop, hl, hcond, hrec] at h
          | some rest =>
            simp only [S3File.readdirLoop, hl, hcond, if_true, hrec, Prod.mk.injEq,
              Except.ok.injEq, Option.some.injEq] at h
            obtain ⟨h1, h2, h3⟩ := h
            subst h1
            subst h2
            subst h3
            exact PagedRun.more tok st out st1 st2 t2 rest hl hcond (ih _ _ _ _ _ hrec)
      · have hcond' : (boolValue out.isTruncated && out.nextContinuationToken.isSome) = false := by
          cases hcc : (boolValue out.isTruncated && out.nextContinuationToken.isSome)
          · rfl
          · exact absurd hcc hcond
        simp only [S3File.readdirLoop, hl, hcond', Bool.false_eq_true, if_false,
          Prod.mk.injEq, Except.ok.injEq, Option.some.injEq] at h
        obtain ⟨h1, h2, h3⟩ := h
        subst h1
        subst h2
        subst h3
        exact PagedRun.last tok st out st1 hl hcond'

theorem pagedRun_readdirLoop {σ : Type} (api : S3api σ) (f : S3File) (count : Int) :
    ∀ (tok : Option String) (st st' : σ) (trace : List Call) (infos : List S3FileInfo),
    PagedRun api f count tok st st' trace infos →
    ∀ fuel : Nat, trace.length ≤ fuel →
    S3File.readdirLoop api f count fuel tok st = (.ok (some infos), st', trace) := by
  intro tok st st' trace infos hrun
  induction hrun with
  | last tok st out st1 hcall hstop =>
    intro fuel hfuel
    cases fuel with
    | zero => simp at hfuel
    | succ k =>
      simp only [S3File.readdirLoop, hcall, hstop, Bool.false_eq_true, if_false]
  | more tok st out st1 st2 calls rest hcall hmore htail ih =>
    intro fuel hfuel
    cases fuel with
    | zero => simp at hfuel
    | succ k =>
      have hk : calls.length ≤ k := by
        simp only [List.length_cons] at hfuel
        omega
      simp only [S3File.readdirLoop, hcall, hmore, if_true, ih k hk]

/-- C3: Readdir on a handle with no fetched object fails with the
cannot-read-directory error and issues no store call; on a handle with one,
a successful run is exactly a PagedRun chain over the store's actual
responses, in both directions: every successful run forms such a chain
(soundness), and whenever the store's responses form such a chain, Readdir
with enough fuel returns precisely its accumulated entries, final state and
call trace (completeness).  Each chain link's page output is the api's
actual response at the actual intermediate state, every call carries the
trimmed key as prefix and the count as page size, page entries are
accumulated flat and in order, and a further page is requested exactly when
the actual response both reports the result truncated and supplies a
continuation token. -/
theorem c3_readdir_contract :
    ∀ (σ : Type) (api : S3api σ) (f : S3File) (count : Int),
      (∀ (fuel : Nat) (st : σ), f.s3ObjectOutput = none →
        S3File.Readdir api f count fuel st = (.error "Cannot read directory", st, [])) ∧
      (∀ (fuel : Nat) (st : σ) (infos : List S3FileInfo) (st' : σ) (trace : List Call),
        f.s3ObjectOutput ≠ none →
        S3File.Readdir api f count fuel st = (.ok (some infos), st', trace) →
        PagedRun api f count none st st' trace infos) ∧
      (∀ (fuel : Nat) (st st' : σ) (trace : List Call) (infos : List S3FileInfo),
        f.s3ObjectOutput ≠ none →
        PagedRun api f count none st st' trace infos →
        trace.length ≤ fuel →
        S3File.Readdir api f count fuel st = (.ok (some infos), st', trace)) := by
  intro σ api f count
  refine ⟨?_, ?_, ?_⟩
  · intro fuel st h
    simp [S3File.Readdir, h]
  · intro fuel st infos st' trace hsome hrun
    rcases ho : f.s3ObjectOutput with _ | out0
    · exact absurd ho hsome
    · simp only [S3File.Readdir, ho] at hrun
      exact readdirLoop_pagedRun api f count fuel none st infos st' trace hrun
  · intro fuel st st' trace infos hsome hrun hfuel
    rcases ho : f.s3ObjectOutput with _ | out0
    · exact absurd ho hsome
    · simp only [S3File.Readdir, ho]
      exact pagedRun_readdirLoop api f count none st st' trace infos hrun fuel hfuel

/-- Witness for C3 at concrete stores: a handle with no stream context fails
with the cannot-read-directory error and no store call; a successful
concrete listing forms a one-page chain over the store's actual response;
and that chain, fed back to the completeness direction, pins down the run's
full result. -/
theorem c3_witness :
    S3File.Readdir specApi ⟨"b", "k", none⟩ 4 1 ⟨"b", []⟩ =
      (.error "Cannot read directory", (⟨"b", []⟩ : StoreState), []) ∧
    PagedRun specApi ⟨"b", "test/path", some ⟨⟨[], false, false⟩, none, none⟩⟩ 4 none
      ⟨"b", [("test/path", ⟨[1], false⟩), ("test/path/sub", ⟨[2], false⟩),
             ("alt", ⟨[3], false⟩), ("subtest/path", ⟨[4], false⟩)]⟩
      ⟨"b", [("test/path", ⟨[1], false⟩), ("test/path/sub", ⟨[2], false⟩),
             ("alt", ⟨[3], false⟩), ("subtest/path", ⟨[4], false⟩)]⟩
      [Call.listObjectsV2 ⟨"b", some "test/path", none, some 4⟩]
      [S3FileInfo.mk "test/path" none (some ⟨some "test/path"⟩),
       S3FileInfo.mk "test/path/sub" none (some ⟨some "test/path/sub"⟩)] ∧
    S3File.Readdir specApi ⟨"b", "test/path", some ⟨⟨[], false, false⟩, none, none⟩⟩ 4 1
        ⟨"b", [("test/path", ⟨[1], false⟩), ("test/path/sub", ⟨[2], false⟩),
               ("alt", ⟨[3], false⟩), ("subtest/path", ⟨[4], false⟩)]⟩ =
      (.ok (some [S3FileInfo.mk "test/path" none (some ⟨some "test/path"⟩),
                  S3FileInfo.mk "test/path/sub" none (some ⟨some "test/path/sub"⟩)]),
       ⟨"b", [("test/path", ⟨[1], false⟩), ("test/path/sub", ⟨[2], false⟩),
              ("alt", ⟨[3], false⟩), ("subtest/path", ⟨[4], false⟩)]⟩,
       [Call.listObjectsV2 ⟨"b", some "test/path", none, some 4⟩]) :=
  ⟨(c3_readdir_contract StoreState specApi ⟨"b", "k", none⟩ 4).1 1 ⟨"b", []⟩ rfl,
   (c3_readdir_contract StoreState specApi
      ⟨"b", "test/path", some ⟨⟨[], false, false⟩, none, none⟩⟩ 4).2.1 1
     ⟨"b", [("test/path", ⟨[1], false⟩), ("test/path/sub", ⟨[2], false⟩),
            ("alt", ⟨[3], false⟩), ("subtest/path", ⟨[4], false⟩)]⟩
     [S3FileInfo.mk "test/path" none (some ⟨some "test/path"⟩),
      S3FileInfo.mk "test/path/sub" none (some ⟨some "test/path/sub"⟩)]
     ⟨"b", [("test/path", ⟨[1], false⟩), ("test/path/sub", ⟨[2], false⟩),
            ("alt", ⟨[3], false⟩), ("subtest/path", ⟨[4], false⟩)]⟩
     [Call.listObjectsV2 ⟨"b", some "test/path", none, some 4⟩]
     (by decide) rfl,
   (c3_readdir_contract StoreState specApi
      ⟨"b", "test/path", some ⟨⟨[], false, false⟩, none, none⟩⟩ 4).2.2 1
     ⟨"b", [("test/path", ⟨[1], false⟩), ("test/path/sub", ⟨[2], false⟩),
            ("alt", ⟨[3], false⟩), ("subtest/path", ⟨[4], false⟩)]⟩
     ⟨"b", [("test/path", ⟨[1], false⟩), ("test/path/sub", ⟨[2], false⟩),
            ("alt", ⟨[3], false⟩), ("subtest/path", ⟨[4], false⟩)]⟩
     [Call.listObjectsV2 ⟨"b", some "test/path", none, some 4⟩]
     [S3FileInfo.mk "test/path" none (some ⟨some "test/path"⟩),
      S3FileInfo.mk "test/path/sub" none (some ⟨some "test/path/sub"⟩)]
     (by decide)
     (PagedRun.last none
       (⟨"b", [("test/path", ⟨[1], false⟩), ("test/path/sub", ⟨[2], false⟩),
               ("alt", ⟨[3], false⟩), ("subtest/path", ⟨[4], false⟩)]⟩ : StoreState)
       (⟨[⟨some "test/path"⟩, ⟨some "test/path/sub"⟩], some false, none⟩ :
         ListObjectsV2Output)
       (⟨"b", [("test/path", ⟨[1], false⟩), ("test/path/sub", ⟨[2], false⟩),
               ("alt", ⟨[3], false⟩), ("subtest/path", ⟨[4], false⟩)]⟩ : StoreState)
       rfl rfl)
     (by decide)⟩

/-- C7: over a bucket holding the keys test/path, test/path/sub, alt and
subtest/path, Readdir with count 4 on a handle at key test/path consumes the
single non-truncated page and returns exactly the two keys sharing the
prefix, with no duplicate, no entry outside the prefix, and no more than
four entries. -/
theorem c7_readdir_concrete :
    S3File.Readdir specApi ⟨"b", "test/path", some ⟨⟨[], false, false⟩, none, none⟩⟩ 4 1
        ⟨"b", [("test/path", ⟨[1], false⟩), ("test/path/sub", ⟨[2], false⟩),
               ("alt", ⟨[3], false⟩), ("subtest/path", ⟨[4], false⟩)]⟩ =
      (.ok (some [S3FileInfo.mk "test/path" none (some ⟨some "test/path"⟩),
                  S3FileInfo.mk "test/path/sub" none (some ⟨some "test/path/sub"⟩)]),
       ⟨"b", [("test/path", ⟨[1], false⟩), ("test/path/sub", ⟨[2], false⟩),
              ("alt", ⟨[3], false⟩), ("subtest/path", ⟨[4], false⟩)]⟩,
       [Call.listObjectsV2 ⟨"b", some "test/path", none, some 4⟩]) ∧
    [S3FileInfo.mk "test/path" none (some ⟨some "test/path"⟩),
     S3FileInfo.mk "test/path/sub" none (some ⟨some "test/path/sub"⟩)].map
        (fun i => i.key) =
      matchingKeys
        ⟨"b", [("test/path", ⟨[1], false⟩), ("test/path/sub", ⟨[2], false⟩),
               ("alt", ⟨[3], false⟩), ("subtest/path", ⟨[4], false⟩)]⟩ "test/path" ∧
    List.Nodup
      ([S3FileInfo.mk "test/path" none (some ⟨some "test/path"⟩),
        S3FileInfo.mk "test/path/sub" none (some ⟨some "test/path/sub"⟩)].map
          (fun i => i.key)) ∧
    [S3FileInfo.mk "test/path" none (some ⟨some "test/path"⟩),
     S3FileInfo.mk "test/path/sub" none (some ⟨some "test/path/sub"⟩)].length ≤ 4 :=
  ⟨rfl, by decide, by decide, by decide⟩

/-- C9 (amended): Readdirnames is Readdir followed by taking each entry's
basename; when Readdir fails, Readdirnames returns the propagated error
together with an empty name list, because Readdir discards everything it
accumulated when a page fails. -/
theorem c9_readdirnames_amended :
    ∀ (σ : Type) (api : S3api σ) (f : S3File) (n : Int) (fuel : Nat) (st : σ),
      (∀ fi st1 t, S3File.Readdir api f n fuel st = (.ok (some fi), st1, t) →
        S3File.Readdirnames api f n fuel st =
          (.ok (some (fi.map (fun i => filepathSplitFile (S3FileInfo.Name i)), none)),
           st1, t)) ∧
      (∀ e st1 t, S3File.Readdir api f n fuel st = (.error e, st1, t) →
        S3File.Readdirnames api f n fuel st = (.ok (some ([], some e)), st1, t)) := by
  intro σ api f n fuel st
  constructor
  · intro fi st1 t h
    simp [S3File.Readdirnames, h]
  · intro e st1 t h
    simp [S3File.Readdirnames, h]

/-- Counterexample for C9: against a store whose first page succeeds with one
entry and whose second page fails, Readdir fails after consuming the first
page, and Readdirnames returns the error with an empty name list instead of
the partial name the first page would have contributed. -/
theorem c9_counterexample :
    S3File.Readdirnames flakyApi ⟨"b", "/test", some ⟨⟨[], false, false⟩, none, none⟩⟩ 2 2 0 =
      (.ok (some ([], some "boom")), 2,
       [Call.listObjectsV2 ⟨"b", some "test", none, some 2⟩,
        Call.listObjectsV2 ⟨"b", some "test", some "t", some 2⟩]) ∧
    (S3File.Readdir flakyApi ⟨"b", "/test", some ⟨⟨[], false, false⟩, none, none⟩⟩ 2 2 0).1 =
      .error "boom" ∧
    ([] : List String) ≠
      [filepathSplitFile
        (S3FileInfo.Name (S3FileInfo.mk "test/path" none (some ⟨some "test/path"⟩)))] :=
  ⟨rfl, rfl, by decide⟩

/-- Witness for C9 at a concrete store: a successful one-page listing turns
into the basenames of its entries with no error. -/
theorem c9_witness :
    S3File.Readdirnames specApi ⟨"b", "d", some ⟨⟨[], false, false⟩, none, none⟩⟩ 5 1
        ⟨"b", [("d/x", ⟨[1], false⟩)]⟩ =
      (.ok (some ([S3FileInfo.mk "d/x" none (some ⟨some "d/x"⟩)].map
          (fun i => filepathSplitFile (S3FileInfo.Name i)), none)),
       ⟨"b", [("d/x", ⟨[1], false⟩)]⟩,
       [Call.listObjectsV2 ⟨"b", some "d", none, some 5⟩]) :=
  (c9_readdirnames_amended StoreState specApi
      ⟨"b", "d", some ⟨⟨[], false, false⟩, none, none⟩⟩ 5 1
      ⟨"b", [("d/x", ⟨[1], false⟩)]⟩).1
    [S3FileInfo.mk "d/x" none (some ⟨some "d/x"⟩)]
    ⟨"b", [("d/x", ⟨[1], false⟩)]⟩
    [Call.listObjectsV2 ⟨"b", some "d", none, some 5⟩] rfl

end S3fs
